import Mathlib

/-!
Verification of the `support_vectors` boundary-selection pipeline.

The Python sources are embedded shallowly:
* `numpy` arrays become `List`s; points have an abstract type `α`,
  class labels an abstract decidable-equality type `β`, and degrees are `ℚ`.
* boolean-mask indexing `X[mask]` becomes mapping `List.getD` over the list
  of indices at which the mask is true;
* `raise ValueError(msg)` becomes `Except.error (SVError.valueError msg)`;
* the proximity-graph builders (`gabriel_graph`, `relative_neighborhood_graph`,
  `urquhart_graph`) are external collaborators not present in the sources, so
  `support_vectors` is parameterised over them;
* to observe which pipeline stages run before a failure, the orchestrator also
  returns the list of performed `Step`s (graph builds and extractions) in
  source order.
-/

/-- Errors raised by the pipeline; the Python code raises `ValueError msg`. -/
inductive SVError where
  | valueError (msg : String)
  deriving DecidableEq

/-- Observable pipeline work: a proximity-graph construction or an
interclass-vertex extraction. -/
inductive Step where
  | buildGraph
  | extract
  deriving DecidableEq

section Defs

variable {α β : Type} [Inhabited α] [Inhabited β] [DecidableEq β]

/-- `np.where(ADJ[i])[0]`: the neighbor indices of vertex `i` in the
adjacency matrix `ADJ` (row `i`, positions holding `true`). -/
def nbrs (ADJ : List (List Bool)) (i : Nat) : List Nat :=
  (List.range (ADJ.getD i []).length).filter (fun j => (ADJ.getD i []).getD j false)

/-- `same_class_neighbors` of vertex `i`: neighbors whose label equals `y[i]`. -/
def sameNbrs (ADJ : List (List Bool)) (y : List β) (i : Nat) : List Nat :=
  (nbrs ADJ i).filter (fun j => decide (y.getD j default = y.getD i default))

/-- `different_class_neighbors` of vertex `i`: neighbors with a label
different from `y[i]`. -/
def diffNbrs (ADJ : List (List Bool)) (y : List β) (i : Nat) : List Nat :=
  (nbrs ADJ i).filter (fun j => decide (y.getD j default ≠ y.getD i default))

/-- The retention test of `get_interclass_vertices`: skip `i` when it has no
neighbors (`continue`), otherwise retain it iff it has a different-class
neighbor. -/
def icKeep (ADJ : List (List Bool)) (y : List β) (i : Nat) : Bool :=
  if (nbrs ADJ i).isEmpty then false
  else !(diffNbrs ADJ y i).isEmpty

/-- `len(same_class_neighbors) / len(neighbors)`: the same-class purity ratio
assigned to a retained vertex. -/
def sameFrac (ADJ : List (List Bool)) (y : List β) (i : Nat) : ℚ :=
  ((sameNbrs ADJ y i).length : ℚ) / ((nbrs ADJ i).length : ℚ)

/-- Indices retained by `get_interclass_vertices`, in loop order. -/
def icIdxs (X : List α) (ADJ : List (List Bool)) (y : List β) : List Nat :=
  (List.range X.length).filter (icKeep ADJ y)

/-- The `degrees` array of `get_interclass_vertices` before compaction:
initialised to the sentinel `-1`, with `degrees[i]` overwritten by the purity
ratio for each retained `i`. -/
def interDegreesRaw (X : List α) (ADJ : List (List Bool)) (y : List β) : List ℚ :=
  (List.range X.length).map (fun i => if icKeep ADJ y i then sameFrac ADJ y i else -1)

/-- `get_interclass_vertices(X, ADJ, y)`: the points, labels and degrees of
the vertices having at least one different-class neighbor; the degree array
is compacted by dropping the `-1` sentinels (`degrees[degrees != -1]`). -/
def get_interclass_vertices (X : List α) (ADJ : List (List Bool)) (y : List β) :
    List α × List β × List ℚ :=
  ((icIdxs X ADJ y).map (fun i => X.getD i default),
   (icIdxs X ADJ y).map (fun i => y.getD i default),
   (interDegreesRaw X ADJ y).filter (fun d => decide (d ≠ -1)))

/-- The arithmetic mean of a list of rationals (`np.mean`); `0` on the empty
list, which `np.mean` would make `NaN` — never reached under the length
hypotheses of the theorems below. -/
def listMean (l : List ℚ) : ℚ := l.sum / (l.length : ℚ)

/-- Indices of the members of class `c` (`np.where(y == c)`-style view used
by the per-class masks of the filters). -/
def classIdxs (y : List β) (c : β) : List Nat :=
  (List.range y.length).filter (fun i => decide (y.getD i default = c))

/-- `degrees[y == c]`: the degrees of the members of class `c`. -/
def classDegs (y : List β) (degrees : List ℚ) (c : β) : List ℚ :=
  (classIdxs y c).map (fun i => degrees.getD i 0)

/-- `class_avg_degree`: the mean degree of class `c`. -/
def classMean (y : List β) (degrees : List ℚ) (c : β) : ℚ :=
  listMean (classDegs y degrees c)

/-- The per-index mask of `class_average_filter`: keep `i` iff its degree is
at least the mean degree of its own class. -/
def caKeep (y : List β) (degrees : List ℚ) (i : Nat) : Bool :=
  decide (classMean y degrees (y.getD i default) ≤ degrees.getD i 0)

/-- Indices retained by `class_average_filter`, in original order. -/
def caIdxs (X : List α) (y : List β) (degrees : List ℚ) : List Nat :=
  (List.range X.length).filter (caKeep y degrees)

/-- `class_average_filter(X, y, degrees)`: keep the members whose degree is
`>=` their class's average degree. -/
def class_average_filter (X : List α) (y : List β) (degrees : List ℚ) :
    List α × List β :=
  ((caIdxs X y degrees).map (fun i => X.getD i default),
   (caIdxs X y degrees).map (fun i => y.getD i default))

/-- `class_degrees[interclass_mask]`: the degrees `< 1.0` among the members
of class `c` (the members considered connected to interclass edges). -/
def interDegs (y : List β) (degrees : List ℚ) (c : β) : List ℚ :=
  (classDegs y degrees c).filter (fun d => decide (d < 1))

/-- The per-index mask of `interclass_average_filter`: if no member of `i`'s
class has degree `< 1.0`, keep the whole class; otherwise keep `i` iff its
degree is at least the mean of its class's sub-`1.0` degrees. -/
def icaKeep (y : List β) (degrees : List ℚ) (i : Nat) : Bool :=
  if (interDegs y degrees (y.getD i default)).isEmpty then true
  else decide (listMean (interDegs y degrees (y.getD i default)) ≤ degrees.getD i 0)

/-- Indices retained by `interclass_average_filter`, in original order. -/
def icaIdxs (X : List α) (y : List β) (degrees : List ℚ) : List Nat :=
  (List.range X.length).filter (icaKeep y degrees)

/-- `interclass_average_filter(X, y, degrees)`: drop the members whose degree
is below the average degree of their class's members with degree `< 1.0`
(keeping a class whole when it has no such member). -/
def interclass_average_filter (X : List α) (y : List β) (degrees : List ℚ) :
    List α × List β :=
  ((icaIdxs X y degrees).map (fun i => X.getD i default),
   (icaIdxs X y degrees).map (fun i => y.getD i default))

/-- The fixed tolerance `1e-6` of `zero_degree_filter`. -/
def zTol : ℚ := 1 / 1000000

/-- The per-index mask of `zero_degree_filter`: `degrees > 1e-6`. -/
def zKeep (degrees : List ℚ) (i : Nat) : Bool :=
  decide (zTol < degrees.getD i 0)

/-- Indices retained by `zero_degree_filter`, in original order. -/
def zIdxs (degrees : List ℚ) : List Nat :=
  (List.range degrees.length).filter (zKeep degrees)

/-- `zero_degree_filter(X, y, degrees)`: keep the members whose degree
exceeds the tolerance `1e-6`. -/
def zero_degree_filter (X : List α) (y : List β) (degrees : List ℚ) :
    List α × List β :=
  ((zIdxs degrees).map (fun i => X.getD i default),
   (zIdxs degrees).map (fun i => y.getD i default))

/-- `filter_by_degree(X, y, degrees, filter)`: dispatch on the criterion
name, raising `ValueError` on an unknown name. -/
def filter_by_degree (X : List α) (y : List β) (degrees : List ℚ)
    (filter : String) : Except SVError (List α × List β) :=
  if filter = "class-average" then .ok (class_average_filter X y degrees)
  else if filter = "interclass-average" then .ok (interclass_average_filter X y degrees)
  else if filter = "zero" then .ok (zero_degree_filter X y degrees)
  else .error (.valueError ("Unknown filter method: " ++ filter))

/-- `method_dict` lookup of `support_vectors`: resolve a graph-method name to
one of the three provided proximity-graph builders. -/
def graphLookup (gabriel rng urquhart : List α → List (List Bool))
    (graph_method : String) : Option (List α → List (List Bool)) :=
  if graph_method = "gabriel" then some gabriel
  else if graph_method = "relative_neighborhood" then some rng
  else if graph_method = "urquhart" then some urquhart
  else none

/-- The final coverage check of `support_vectors`: compare the number of
distinct labels in the original `y` with the number in the result's labels
(`len(np.unique(y)) != len(np.unique(ysupport))`). -/
def coverageCheck (y : List β) (Xs : List α) (ys : List β) :
    Except SVError (List α × List β) :=
  if y.dedup.length ≠ ys.dedup.length then
    .error (.valueError "The support vectors do not cover all classes in the original data.")
  else .ok (Xs, ys)

/-- The branch of `support_vectors` taken once the graph method has resolved
to the builder `bg`: build the graph, extract the interclass vertices, then
branch on the filter method (the two extraction steps and any rebuild are
recorded in the returned `Step` list, in source order). -/
def support_vectors_body (bg : List α → List (List Bool)) (X : List α) (y : List β)
    (filter_method one_step_filter_criterion : String) :
    Except SVError (List α × List β) × List Step :=
  if filter_method = "two-pass" then
    match filter_by_degree (get_interclass_vertices X (bg X) y).1
        (get_interclass_vertices X (bg X) y).2.1
        (get_interclass_vertices X (bg X) y).2.2 "class-average" with
    | .error e => (.error e, [.buildGraph, .extract])
    | .ok filtered =>
      (.ok ((get_interclass_vertices filtered.1 (bg filtered.1) filtered.2).1,
        (get_interclass_vertices filtered.1 (bg filtered.1) filtered.2).2.1),
       [.buildGraph, .extract, .buildGraph, .extract])
  else if filter_method = "one-pass" then
    if one_step_filter_criterion ∉ ["interclass-average", "zero"] then
      (.error (.valueError ("Unknown one-step filter criterion: " ++ one_step_filter_criterion)),
       [.buildGraph, .extract])
    else
      match filter_by_degree (get_interclass_vertices X (bg X) y).1
          (get_interclass_vertices X (bg X) y).2.1
          (get_interclass_vertices X (bg X) y).2.2 one_step_filter_criterion with
      | .error e => (.error e, [.buildGraph, .extract])
      | .ok support => (.ok support, [.buildGraph, .extract])
  else
    (.error (.valueError ("Unknown filter method: " ++ filter_method)), [.buildGraph, .extract])

/-- The body of `support_vectors` up to (but excluding) the coverage check:
resolve the graph method (raising `ValueError` on an unknown name before any
work), then run `support_vectors_body` with the resolved builder. -/
def support_vectors_pre (gabriel rng urquhart : List α → List (List Bool))
    (X : List α) (y : List β)
    (graph_method filter_method one_step_filter_criterion : String) :
    Except SVError (List α × List β) × List Step :=
  match graphLookup gabriel rng urquhart graph_method with
  | none => (.error (.valueError ("Unknown graph method: " ++ graph_method)), [])
  | some build_graph =>
    support_vectors_body build_graph X y filter_method one_step_filter_criterion

/-- `support_vectors(X, y, graph_method, filter_method,
one_step_filter_criterion)`: the pipeline body followed by the class-coverage
check, paired with the list of performed graph builds and extractions. -/
def support_vectors (gabriel rng urquhart : List α → List (List Bool))
    (X : List α) (y : List β)
    (graph_method filter_method one_step_filter_criterion : String) :
    Except SVError (List α × List β) × List Step :=
  match support_vectors_pre gabriel rng urquhart X y
      graph_method filter_method one_step_filter_criterion with
  | (.ok support, tr) => (coverageCheck y support.1 support.2, tr)
  | (.error e, tr) => (.error e, tr)

end Defs

section Helpers

variable {α β γ : Type} [Inhabited α] [Inhabited β] [DecidableEq β]

theorem listMean_le_of_forall_le {l : List ℚ} {t : ℚ} (hne : l ≠ [])
    (h : ∀ x ∈ l, t ≤ x) : t ≤ listMean l := by
  have hlen : 0 < (l.length : ℚ) := by
    exact_mod_cast List.length_pos.mpr hne
  have hsum : (l.length : ℚ) * t ≤ l.sum := by
    have := List.card_nsmul_le_sum l t h
    simpa [nsmul_eq_mul] using this
  rw [listMean, le_div_iff hlen, mul_comm]
  exact hsum

theorem sum_lt_length_mul_of_forall_lt {l : List ℚ} {b : ℚ} (hne : l ≠ [])
    (h : ∀ x ∈ l, x < b) : l.sum < (l.length : ℚ) * b := by
  cases l with
  | nil => exact absurd rfl hne
  | cons a t =>
    have ht : t.sum ≤ (t.length : ℚ) * b := by
      have := List.sum_le_card_nsmul t b (fun x hx => le_of_lt (h x (List.mem_cons_of_mem a hx)))
      simpa [nsmul_eq_mul] using this
    have ha : a < b := h a (List.mem_cons_self a t)
    simp only [List.sum_cons, List.length_cons]
    push_cast
    nlinarith

theorem exists_listMean_le {l : List ℚ} (hne : l ≠ []) : ∃ x ∈ l, listMean l ≤ x := by
  by_contra hcon
  push_neg at hcon
  have hlt := sum_lt_length_mul_of_forall_lt hne hcon
  have hlen : (l.length : ℚ) ≠ 0 := by
    exact_mod_cast (List.length_pos.mpr hne).ne'
  have : (l.length : ℚ) * listMean l = l.sum := by
    rw [listMean]
    field_simp
  rw [this] at hlt
  exact lt_irrefl _ hlt

theorem map_getD_range (d : γ) (l : List γ) :
    (List.range l.length).map (fun i => l.getD i d) = l := by
  induction l with
  | nil => rfl
  | cons a t ih =>
    rw [List.length_cons, List.range_succ_eq_map, List.map_cons, List.map_map]
    have hcomp : ((fun i => (a :: t).getD i d) ∘ Nat.succ) = fun i => t.getD i d := rfl
    rw [hcomp, ih]
    rfl

theorem filter_eq_map_getD (p : γ → Bool) (d : γ) (l : List γ) :
    l.filter p = ((List.range l.length).filter (fun i => p (l.getD i d))).map
      (fun i => l.getD i d) := by
  induction l with
  | nil => rfl
  | cons a t ih =>
    rw [List.length_cons, List.range_succ_eq_map]
    rw [List.filter_cons, List.filter_cons]
    have hmapf : (List.map Nat.succ (List.range t.length)).filter
        (fun i => p ((a :: t).getD i d)) =
        List.map Nat.succ ((List.range t.length).filter (fun i => p (t.getD i d))) := by
      rw [List.filter_map]
      rfl
    by_cases hpa : p a
    · simp only [show (a :: t).getD 0 d = a from rfl, hpa, if_pos]
      rw [List.map_cons, hmapf, List.map_map]
      have hcomp : ((fun i => (a :: t).getD i d) ∘ Nat.succ) = fun i => t.getD i d := rfl
      rw [hcomp, ih]
      rfl
    · simp only [show (a :: t).getD 0 d = a from rfl, hpa]
      simp only [Bool.false_eq_true, if_neg, not_false_iff]
      rw [hmapf, List.map_map]
      have hcomp : ((fun i => (a :: t).getD i d) ∘ Nat.succ) = fun i => t.getD i d := rfl
      rw [hcomp, ih]

theorem mem_of_mem_map_getD {l : List γ} {idxs : List Nat} {d : γ}
    (hb : ∀ i ∈ idxs, i < l.length) {x : γ}
    (hx : x ∈ idxs.map (fun i => l.getD i d)) : x ∈ l := by
  obtain ⟨i, hi, rfl⟩ := List.mem_map.mp hx
  rw [List.getD_eq_get _ _ (hb i hi)]
  exact List.get_mem _ _ _

theorem sameFrac_nonneg (ADJ : List (List Bool)) (y : List β) (i : Nat) :
    0 ≤ sameFrac ADJ y i :=
  div_nonneg (Nat.cast_nonneg _) (Nat.cast_nonneg _)

theorem icKeep_iff (ADJ : List (List Bool)) (y : List β) (i : Nat) :
    icKeep ADJ y i = true ↔
      nbrs ADJ i ≠ [] ∧ ∃ j ∈ nbrs ADJ i, y.getD j default ≠ y.getD i default := by
  unfold icKeep
  by_cases h : (nbrs ADJ i).isEmpty
  · rw [List.isEmpty_iff] at h
    simp [h]
  · rw [List.isEmpty_iff] at h
    simp only [h, if_neg, List.isEmpty_iff, not_false_iff]
    rw [Bool.not_eq_true', ← Bool.not_eq_true]
    simp only [List.isEmpty_iff]
    constructor
    · intro hd
      refine ⟨h, ?_⟩
      rcases List.exists_mem_of_ne_nil _ hd with ⟨j, hj⟩
      have := List.mem_filter.mp hj
      exact ⟨j, this.1, by simpa using this.2⟩
    · rintro ⟨-, j, hj, hne⟩
      intro hnil
      have : j ∈ diffNbrs ADJ y i := List.mem_filter.mpr ⟨hj, by simpa using hne⟩
      rw [hnil] at this
      exact absurd this (List.not_mem_nil j)

theorem nbrs_length_split (ADJ : List (List Bool)) (y : List β) (i : Nat) :
    (nbrs ADJ i).length = (sameNbrs ADJ y i).length + (diffNbrs ADJ y i).length := by
  have h := List.length_eq_length_filter_add (l := nbrs ADJ i)
    (fun j => decide (y.getD j default = y.getD i default))
  rw [h]
  congr 1
  unfold diffNbrs
  apply congrArg
  apply List.filter_congr
  intro j _
  simp

theorem sameFrac_lt_one {ADJ : List (List Bool)} {y : List β} {i : Nat}
    (h : icKeep ADJ y i = true) : sameFrac ADJ y i < 1 := by
  rcases (icKeep_iff ADJ y i).mp h with ⟨hne, j, hj, hdiff⟩
  have hdne : diffNbrs ADJ y i ≠ [] := by
    intro hnil
    have : j ∈ diffNbrs ADJ y i := List.mem_filter.mpr ⟨hj, by simpa using hdiff⟩
    rw [hnil] at this
    exact absurd this (List.not_mem_nil j)
  have hsplit := nbrs_length_split ADJ y i
  have hdpos : 0 < (diffNbrs ADJ y i).length := List.length_pos.mpr hdne
  have hlt : (sameNbrs ADJ y i).length < (nbrs ADJ i).length := by omega
  have hpos : (0 : ℚ) < ((nbrs ADJ i).length : ℚ) := by
    exact_mod_cast List.length_pos.mpr hne
  rw [sameFrac, div_lt_one hpos]
  exact_mod_cast hlt

theorem interDegrees_compact (X : List α) (ADJ : List (List Bool)) (y : List β) :
    (interDegreesRaw X ADJ y).filter (fun d => decide (d ≠ -1)) =
      (icIdxs X ADJ y).map (sameFrac ADJ y) := by
  unfold interDegreesRaw icIdxs
  rw [List.filter_map]
  have h1 : (List.range X.length).filter
      ((fun d => decide (d ≠ -1)) ∘ (fun i => if icKeep ADJ y i then sameFrac ADJ y i else -1)) =
      (List.range X.length).filter (icKeep ADJ y) := by
    apply List.filter_congr
    intro i _
    by_cases h : icKeep ADJ y i = true
    · have hnn := sameFrac_nonneg ADJ y i (β := β)
      have : sameFrac ADJ y i ≠ -1 := by intro heq; rw [heq] at hnn; linarith
      simp [Function.comp, h, this]
    · simp [Function.comp, h]
  rw [h1]
  apply List.map_congr_left
  intro i hi
  have hk : icKeep ADJ y i = true := (List.mem_filter.mp hi).2
  simp [hk]

end Helpers

section ExtractorTheorems

variable {α β : Type} [Inhabited α] [Inhabited β] [DecidableEq β]

/-- C4: the three arrays returned by `get_interclass_vertices` have equal
length and are positionally aligned (the compacted degree array lists
`sameFrac` at the retained indices, in order); a vertex is retained iff it
has at least one neighbor and at least one differently-labeled neighbor; and
every retained vertex's degree (same-class neighbors over all neighbors)
lies in `[0, 1)`. -/
theorem get_interclass_vertices_aligned (X : List α) (ADJ : List (List Bool)) (y : List β) :
    ((get_interclass_vertices X ADJ y).1.length = (get_interclass_vertices X ADJ y).2.1.length ∧
      (get_interclass_vertices X ADJ y).2.1.length = (get_interclass_vertices X ADJ y).2.2.length) ∧
    (get_interclass_vertices X ADJ y).2.2 = (icIdxs X ADJ y).map (sameFrac ADJ y) ∧
    (∀ i, i ∈ icIdxs X ADJ y ↔
      i < X.length ∧ nbrs ADJ i ≠ [] ∧
        ∃ j ∈ nbrs ADJ i, y.getD j default ≠ y.getD i default) ∧
    (∀ i ∈ icIdxs X ADJ y, 0 ≤ sameFrac ADJ y i ∧ sameFrac ADJ y i < 1) := by
  constructor
  · constructor
    · simp [get_interclass_vertices]
    · show ((icIdxs X ADJ y).map fun i => y.getD i default).length =
        ((interDegreesRaw X ADJ y).filter fun d => decide (d ≠ -1)).length
      rw [interDegrees_compact X ADJ y, List.length_map, List.length_map]
  refine ⟨interDegrees_compact X ADJ y, ?_, ?_⟩
  · intro i
    unfold icIdxs
    rw [List.mem_filter, List.mem_range, icKeep_iff]
  · intro i hi
    have hk : icKeep ADJ y i = true := (List.mem_filter.mp hi).2
    exact ⟨sameFrac_nonneg ADJ y i, sameFrac_lt_one hk⟩

end ExtractorTheorems

/-- Modelled from the spec: the claim's reading of the `interclass-average`
policy keeps index `i` iff its degree is at least the mean degree over all
input vertices globally. -/
def gKeep (degrees : List ℚ) (i : Nat) : Bool :=
  decide (listMean degrees ≤ degrees.getD i 0)

/-- Modelled from the spec: the `interclass-average` filter as the claim
describes it — one global threshold (the mean over all input degrees),
independent of class. Stated for comparison with the source's
`interclass_average_filter`. -/
def interclass_average_global {α β : Type} [Inhabited α] [Inhabited β]
    (X : List α) (y : List β) (degrees : List ℚ) : List α × List β :=
  (((List.range X.length).filter (gKeep degrees)).map (fun i => X.getD i default),
   ((List.range X.length).filter (gKeep degrees)).map (fun i => y.getD i default))

/-- Points of a four-member input on which the per-class and the global
reading of `interclass-average` disagree. -/
def Xc : List Int := [10, 20, 30, 40]

/-- Labels of that input: two classes `0, 0, 1, 1`. -/
def yc : List Int := [0, 0, 1, 1]

/-- Degrees of that input: class `0` has degrees `{0, 2}` (one below `1.0`),
class `1` has degrees `{4, 4}` (none below `1.0`). -/
def dc : List ℚ := [0, 2, 4, 4]

theorem c2help_cd0 : classDegs yc dc 0 = [0, 2] := by
  unfold classDegs
  rw [show classIdxs yc 0 = [0, 1] from by decide]
  rfl

theorem c2help_cd1 : classDegs yc dc 1 = [4, 4] := by
  unfold classDegs
  rw [show classIdxs yc 1 = [2, 3] from by decide]
  rfl

theorem c2help_id0 : interDegs yc dc 0 = [0] := by
  unfold interDegs
  rw [c2help_cd0]
  simp only [List.filter_cons, List.filter_nil]
  norm_num

theorem c2help_id1 : interDegs yc dc 1 = [] := by
  unfold interDegs
  rw [c2help_cd1]
  simp only [List.filter_cons, List.filter_nil]
  norm_num

theorem c2help_k0 : icaKeep yc dc 0 = true := by
  unfold icaKeep
  rw [show yc.getD 0 default = (0 : Int) from rfl, c2help_id0,
    show listMean [(0 : ℚ)] = 0 from by norm_num [listMean],
    show dc.getD 0 0 = (0 : ℚ) from rfl]
  norm_num

theorem c2help_k1 : icaKeep yc dc 1 = true := by
  unfold icaKeep
  rw [show yc.getD 1 default = (0 : Int) from rfl, c2help_id0,
    show listMean [(0 : ℚ)] = 0 from by norm_num [listMean],
    show dc.getD 1 0 = (2 : ℚ) from rfl]
  norm_num

theorem c2help_k2 : icaKeep yc dc 2 = true := by
  unfold icaKeep
  rw [show yc.getD 2 default = (1 : Int) from rfl, c2help_id1]
  rfl

theorem c2help_k3 : icaKeep yc dc 3 = true := by
  unfold icaKeep
  rw [show yc.getD 3 default = (1 : Int) from rfl, c2help_id1]
  rfl

theorem c2help_idxs : icaIdxs Xc yc dc = [0, 1, 2, 3] := by
  unfold icaIdxs
  rw [show Xc.length = 4 from rfl, show List.range 4 = [0, 1, 2, 3] from by decide]
  apply List.filter_eq_self.mpr
  intro i hi
  fin_cases hi
  · exact c2help_k0
  · exact c2help_k1
  · exact c2help_k2
  · exact c2help_k3

theorem c2help_mean : listMean dc = 5/2 := by
  norm_num [listMean, dc, List.sum_cons, List.sum_nil]

theorem c2help_g0 : gKeep dc 0 = false := by
  unfold gKeep
  rw [c2help_mean, show dc.getD 0 0 = (0 : ℚ) from rfl]
  norm_num

theorem c2help_g1 : gKeep dc 1 = false := by
  unfold gKeep
  rw [c2help_mean, show dc.getD 1 0 = (2 : ℚ) from rfl]
  norm_num

theorem c2help_g2 : gKeep dc 2 = true := by
  unfold gKeep
  rw [c2help_mean, show dc.getD 2 0 = (4 : ℚ) from rfl]
  norm_num

theorem c2help_g3 : gKeep dc 3 = true := by
  unfold gKeep
  rw [c2help_mean, show dc.getD 3 0 = (4 : ℚ) from rfl]
  norm_num

theorem c2help_gidxs : (List.range Xc.length).filter (gKeep dc) = [2, 3] := by
  rw [show Xc.length = 4 from rfl, show List.range 4 = [0, 1, 2, 3] from by decide]
  simp only [List.filter_cons, List.filter_nil, c2help_g0, c2help_g1, c2help_g2, c2help_g3]
  rfl

/-- C2 (counterexample): on `(Xc, yc, dc)` the source's
`interclass_average_filter` (per-class threshold over the sub-`1.0` degrees,
whole class kept when there are none) keeps all four members, while the
claimed single-global-threshold policy keeps only the last two — so the claim
is false of the code. -/
theorem interclass_average_filter_not_global :
    interclass_average_filter Xc yc dc ≠ interclass_average_global Xc yc dc := by
  have hA : interclass_average_filter Xc yc dc = (Xc, yc) := by
    show ((icaIdxs Xc yc dc).map fun i => Xc.getD i default,
      (icaIdxs Xc yc dc).map fun i => yc.getD i default) = _
    rw [c2help_idxs]
    rfl
  have hB : interclass_average_global Xc yc dc = ([30, 40], [1, 1]) := by
    unfold interclass_average_global
    rw [c2help_gidxs]
    rfl
  rw [hA, hB]
  intro h
  exact absurd h (by decide)

/-- C2 (amended): the `interclass-average` filter retains exactly the
members whose degree is at least the mean of the sub-`1.0` degrees of their
own class, retaining a whole class when none of its degrees is below `1.0` —
a per-class threshold, not the claimed global one. -/
theorem interclass_average_mem {α β : Type} [Inhabited α] [Inhabited β] [DecidableEq β]
    (X : List α) (y : List β) (degrees : List ℚ) (i : Nat) :
    i ∈ icaIdxs X y degrees ↔ i < X.length ∧
      (interDegs y degrees (y.getD i default) = [] ∨
        (interDegs y degrees (y.getD i default)).sum ≤
          degrees.getD i 0 * ((interDegs y degrees (y.getD i default)).length : ℚ)) := by
  unfold icaIdxs
  rw [List.mem_filter, List.mem_range]
  apply and_congr_right
  intro _
  unfold icaKeep
  by_cases h : interDegs y degrees (y.getD i default) = []
  · rw [h]
    simp
  · have hpos : (0 : ℚ) < ((interDegs y degrees (y.getD i default)).length : ℚ) := by
      exact_mod_cast List.length_pos.mpr h
    have hcond : ¬((interDegs y degrees (y.getD i default)).isEmpty = true) := by
      rw [List.isEmpty_iff]; exact h
    rw [if_neg hcond, decide_eq_true_eq, or_iff_right h]
    unfold listMean
    rw [div_le_iff hpos]

/-- C5: for every class `c` whose retained subset under `class_average_filter`
is non-empty, the mean degree of the retained members of `c` is at least the
mean degree of all input members of `c` (every retained member's degree is at
least the class mean). -/
theorem class_average_retained_mean {α β : Type} [Inhabited α] [Inhabited β] [DecidableEq β]
    (X : List α) (y : List β) (degrees : List ℚ) (c : β)
    (hc : c ∈ y)
    (hne : ((caIdxs X y degrees).filter (fun i => decide (y.getD i default = c))).map
      (fun i => degrees.getD i 0) ≠ []) :
    classMean y degrees c ≤
      listMean (((caIdxs X y degrees).filter (fun i => decide (y.getD i default = c))).map
        (fun i => degrees.getD i 0)) := by
  apply listMean_le_of_forall_le hne
  intro x hx
  obtain ⟨i, hi, rfl⟩ := List.mem_map.mp hx
  have h2 := List.mem_filter.mp hi
  have hkeep : caKeep y degrees i = true := (List.mem_filter.mp h2.1).2
  have hc' : y.getD i default = c := of_decide_eq_true h2.2
  unfold caKeep at hkeep
  rw [decide_eq_true_eq, hc'] at hkeep
  exact hkeep

theorem c5w_classMean : classMean [(3 : Int)] [(0 : ℚ)] 3 = 0 := by
  unfold classMean classDegs
  rw [show classIdxs [(3 : Int)] 3 = [0] from by decide]
  norm_num [listMean]

theorem c5w_caIdxs : caIdxs [(7 : Int)] [(3 : Int)] [(0 : ℚ)] = [0] := by
  unfold caIdxs
  rw [show List.range ([(7 : Int)].length) = [0] from by decide]
  have hk : caKeep [(3 : Int)] [(0 : ℚ)] 0 = true := by
    unfold caKeep
    rw [show ([(3 : Int)].getD 0 default) = (3 : Int) from rfl, c5w_classMean,
      show ([(0 : ℚ)].getD 0 0) = (0 : ℚ) from rfl]
    norm_num
  simp [List.filter_cons, hk]

/-- C5 witness: concrete single-member instance `X = [7]`, `y = [3]`,
`degrees = [0]`, class `3`. -/
theorem class_average_retained_mean_witness :
    classMean [(3 : Int)] [(0 : ℚ)] 3 ≤
      listMean (((caIdxs [(7 : Int)] [(3 : Int)] [(0 : ℚ)]).filter
          (fun i => decide (([(3 : Int)].getD i default) = 3))).map
        (fun i => ([(0 : ℚ)].getD i 0))) :=
  class_average_retained_mean [(7 : Int)] [(3 : Int)] [(0 : ℚ)] 3 (by decide)
    (by rw [c5w_caIdxs]; simp)

section FilterTheorems

variable {α β : Type} [Inhabited α] [Inhabited β] [DecidableEq β]

/-- C9: `class_average_filter` preserves class coverage — every label present
in the input is present in the output, because every non-empty class has a
member whose degree is at least the class mean. -/
theorem class_average_coverage (X : List α) (y : List β) (degrees : List ℚ) (c : β)
    (hy : y.length = X.length) (hc : c ∈ y) :
    c ∈ (class_average_filter X y degrees).2 := by
  obtain ⟨k, hk⟩ := List.get_of_mem hc
  have hkmem : (k : Nat) ∈ classIdxs y c := by
    unfold classIdxs
    rw [List.mem_filter, List.mem_range]
    refine ⟨k.isLt, decide_eq_true ?_⟩
    rw [List.getD_eq_get _ _ k.isLt]
    exact hk
  have hne : classDegs y degrees c ≠ [] := by
    unfold classDegs
    intro h
    rw [List.map_eq_nil_iff] at h
    rw [h] at hkmem
    exact List.not_mem_nil _ hkmem
  obtain ⟨x, hxmem, hxge⟩ := exists_listMean_le hne
  obtain ⟨i, hi, rfl⟩ := List.mem_map.mp hxmem
  have hiltn : i < y.length := List.mem_range.mp (List.mem_filter.mp hi).1
  have hilab : y.getD i default = c := of_decide_eq_true (List.mem_filter.mp hi).2
  have hkeep : caKeep y degrees i = true := by
    unfold caKeep
    rw [decide_eq_true_eq, hilab]
    exact hxge
  have hica : i ∈ caIdxs X y degrees := by
    unfold caIdxs
    rw [List.mem_filter, List.mem_range]
    exact ⟨by omega, hkeep⟩
  show c ∈ (caIdxs X y degrees).map fun i => y.getD i default
  exact List.mem_map.mpr ⟨i, hica, hilab⟩

/-- C9 witness: class `3` survives on the single-member input. -/
theorem class_average_coverage_witness :
    (3 : Int) ∈ (class_average_filter [(7 : Int)] [(3 : Int)] [(0 : ℚ)]).2 :=
  class_average_coverage [(7 : Int)] [(3 : Int)] [(0 : ℚ)] 3 rfl (by decide)

/-- C6: the zero filter is idempotent — applying `zero_degree_filter` to its
own output, with the correspondingly filtered degree array, returns that
output unchanged, since every retained degree already exceeds the tolerance. -/
theorem zero_degree_filter_idem (X : List α) (y : List β) (degrees : List ℚ) :
    zero_degree_filter (zero_degree_filter X y degrees).1 (zero_degree_filter X y degrees).2
      (degrees.filter fun d => decide (zTol < d)) = zero_degree_filter X y degrees := by
  have h1 : degrees.filter (fun d => decide (zTol < d)) =
      (zIdxs degrees).map (fun i => degrees.getD i 0) := by
    rw [filter_eq_map_getD (fun d => decide (zTol < d)) 0 degrees]
    rfl
  have h3 : zIdxs (degrees.filter fun d => decide (zTol < d)) =
      List.range (degrees.filter fun d => decide (zTol < d)).length := by
    unfold zIdxs
    apply List.filter_eq_self.mpr
    intro i hi
    have hilt : i < (degrees.filter fun d => decide (zTol < d)).length := List.mem_range.mp hi
    unfold zKeep
    apply decide_eq_true
    have hmem : (degrees.filter fun d => decide (zTol < d)).getD i 0 ∈
        degrees.filter fun d => decide (zTol < d) := by
      rw [List.getD_eq_get _ _ hilt]
      exact List.get_mem _ _ _
    exact of_decide_eq_true ((List.mem_filter.mp hmem).2)
  have hlX : (degrees.filter fun d => decide (zTol < d)).length =
      ((zero_degree_filter X y degrees).1).length := by
    show _ = ((zIdxs degrees).map (fun i => X.getD i default)).length
    rw [h1, List.length_map, List.length_map]
  have hlY : (degrees.filter fun d => decide (zTol < d)).length =
      ((zero_degree_filter X y degrees).2).length := by
    show _ = ((zIdxs degrees).map (fun i => y.getD i default)).length
    rw [h1, List.length_map, List.length_map]
  show ((zIdxs (degrees.filter fun d => decide (zTol < d))).map
      (fun i => (zero_degree_filter X y degrees).1.getD i default),
    (zIdxs (degrees.filter fun d => decide (zTol < d))).map
      (fun i => (zero_degree_filter X y degrees).2.getD i default)) =
    zero_degree_filter X y degrees
  rw [h3]
  have e1 : (List.range (degrees.filter fun d => decide (zTol < d)).length).map
      (fun i => (zero_degree_filter X y degrees).1.getD i default) =
      (zero_degree_filter X y degrees).1 := by
    rw [hlX]
    exact map_getD_range default _
  have e2 : (List.range (degrees.filter fun d => decide (zTol < d)).length).map
      (fun i => (zero_degree_filter X y degrees).2.getD i default) =
      (zero_degree_filter X y degrees).2 := by
    rw [hlY]
    exact map_getD_range default _
  rw [e1, e2]

/-- C8: when every input degree is strictly below `1.0` (the extractor's
postcondition), `interclass_average_filter` and `class_average_filter` agree:
the sub-`1.0` selection then covers every member of every class, so the
per-class interclass mean is the class mean. -/
theorem interclass_average_eq_class_average (X : List α) (y : List β) (degrees : List ℚ)
    (hy : y.length = X.length) (hd : degrees.length = y.length)
    (hlt : ∀ d ∈ degrees, d < 1) :
    interclass_average_filter X y degrees = class_average_filter X y degrees := by
  have hmask : ∀ i ∈ List.range X.length, icaKeep y degrees i = caKeep y degrees i := by
    intro i hi
    have hilt : i < y.length := by rw [hy]; exact List.mem_range.mp hi
    have hsub : interDegs y degrees (y.getD i default) = classDegs y degrees (y.getD i default) := by
      unfold interDegs
      apply List.filter_eq_self.mpr
      intro d hmem
      obtain ⟨j, hj, rfl⟩ := List.mem_map.mp hmem
      have hjlt : j < y.length := List.mem_range.mp (List.mem_filter.mp hj).1
      have hjd : degrees.getD j 0 ∈ degrees := by
        rw [List.getD_eq_get _ _ (by omega : j < degrees.length)]
        exact List.get_mem _ _ _
      exact decide_eq_true (hlt _ hjd)
    have hne : classDegs y degrees (y.getD i default) ≠ [] := by
      have himem : i ∈ classIdxs y (y.getD i default) := by
        unfold classIdxs
        rw [List.mem_filter, List.mem_range]
        exact ⟨hilt, decide_eq_true rfl⟩
      unfold classDegs
      intro hnil
      rw [List.map_eq_nil_iff] at hnil
      rw [hnil] at himem
      exact List.not_mem_nil _ himem
    unfold icaKeep caKeep
    rw [hsub]
    have hcond : ¬((classDegs y degrees (y.getD i default)).isEmpty = true) := by
      rw [List.isEmpty_iff]
      exact hne
    rw [if_neg hcond]
    rfl
  have hidx : icaIdxs X y degrees = caIdxs X y degrees := by
    unfold icaIdxs caIdxs
    exact List.filter_congr hmask
  show ((icaIdxs X y degrees).map fun i => X.getD i default,
    (icaIdxs X y degrees).map fun i => y.getD i default) = _
  rw [hidx]
  rfl

/-- C8 witness: on `X = [5]`, `y = [0]`, `degrees = [1/2]` (all degrees below
`1.0`) the two filters coincide. -/
theorem interclass_average_eq_class_average_witness :
    interclass_average_filter [(5 : Int)] [(0 : Int)] [(1/2 : ℚ)] =
      class_average_filter [(5 : Int)] [(0 : Int)] [(1/2 : ℚ)] :=
  interclass_average_eq_class_average [(5 : Int)] [(0 : Int)] [(1/2 : ℚ)] rfl rfl
    (by norm_num)

end FilterTheorems

/-- Points of the four-vertex spec scenario (the point values double as
vertex identifiers `0..3`). -/
def X3 : List Int := [0, 1, 2, 3]

/-- Labels of the scenario: classes `A, A, B, B` encoded as `0, 0, 1, 1`. -/
def y3 : List Int := [0, 0, 1, 1]

/-- Symmetric adjacency of the scenario: edges 0-1, 1-2 and 2-3. -/
def ADJ3 : List (List Bool) :=
  [[false, true, false, false],
   [true, false, true, false],
   [false, true, false, true],
   [false, false, true, false]]

theorem scenario_icIdxs : icIdxs X3 ADJ3 y3 = [1, 2] := by decide

theorem scenario_frac1 : sameFrac ADJ3 y3 1 = 1/2 := by
  simp only [sameFrac]
  rw [show (sameNbrs ADJ3 y3 1).length = 1 from by decide,
    show (nbrs ADJ3 1).length = 2 from by decide]
  norm_num

theorem scenario_frac2 : sameFrac ADJ3 y3 2 = 1/2 := by
  simp only [sameFrac]
  rw [show (sameNbrs ADJ3 y3 2).length = 1 from by decide,
    show (nbrs ADJ3 2).length = 2 from by decide]
  norm_num

/-- C3 (counterexample): on the scenario, the extractor's degree array is not
`[0.0, 0.0]` as claimed — vertex 1 has neighbors `{0, 2}`, one of which is
same-class, so its degree is `1/2` (and likewise vertex 2). -/
theorem scenario_degrees_ne_zero :
    (get_interclass_vertices X3 ADJ3 y3).2.2 ≠ [0, 0] := by
  intro h
  rw [show (get_interclass_vertices X3 ADJ3 y3).2.2 =
        (icIdxs X3 ADJ3 y3).map (sameFrac ADJ3 y3) from interDegrees_compact X3 ADJ3 y3,
    scenario_icIdxs] at h
  simp only [List.map_cons, List.map_nil, scenario_frac1, scenario_frac2,
    List.cons.injEq] at h
  norm_num at h

/-- C3 (amended): on the scenario, the extractor returns exactly the points
of vertices 1 and 2 in that order, with degree `1/2` for each (one same-class
neighbor out of two neighbors). -/
theorem scenario_extractor_result :
    get_interclass_vertices X3 ADJ3 y3 = ([1, 2], [0, 1], [1/2, 1/2]) := by
  show ((icIdxs X3 ADJ3 y3).map fun i => X3.getD i default,
    (icIdxs X3 ADJ3 y3).map fun i => y3.getD i default,
    (interDegreesRaw X3 ADJ3 y3).filter fun d => decide (d ≠ -1)) = _
  rw [interDegrees_compact X3 ADJ3 y3, scenario_icIdxs]
  simp only [List.map_cons, List.map_nil, scenario_frac1, scenario_frac2]
  rfl

section OrchestratorLemmas

variable {α β : Type} [Inhabited α] [Inhabited β] [DecidableEq β]

theorem extract_labels_sub (X : List α) (ADJ : List (List Bool)) (y : List β)
    (hy : y.length = X.length) :
    ∀ lab ∈ (get_interclass_vertices X ADJ y).2.1, lab ∈ y := by
  intro lab hmem
  have hmem2 : lab ∈ (icIdxs X ADJ y).map (fun i => y.getD i default) := hmem
  refine mem_of_mem_map_getD ?_ hmem2
  intro i hi
  have hir := List.mem_range.mp (List.mem_filter.mp hi).1
  omega

theorem extract_len_Xy (X : List α) (ADJ : List (List Bool)) (y : List β) :
    (get_interclass_vertices X ADJ y).1.length = (get_interclass_vertices X ADJ y).2.1.length := by
  simp [get_interclass_vertices]

theorem extract_len_d (X : List α) (ADJ : List (List Bool)) (y : List β) :
    (get_interclass_vertices X ADJ y).2.2.length =
      (get_interclass_vertices X ADJ y).2.1.length := by
  show ((interDegreesRaw X ADJ y).filter fun d => decide (d ≠ -1)).length =
    ((icIdxs X ADJ y).map fun i => y.getD i default).length
  rw [interDegrees_compact X ADJ y, List.length_map, List.length_map]

theorem ca_len_Xy (X : List α) (y : List β) (degrees : List ℚ) :
    (class_average_filter X y degrees).1.length = (class_average_filter X y degrees).2.length := by
  simp [class_average_filter]

theorem ca_labels_sub (X : List α) (y : List β) (degrees : List ℚ)
    (hXy : X.length ≤ y.length) :
    ∀ lab ∈ (class_average_filter X y degrees).2, lab ∈ y := by
  intro lab hmem
  have hmem2 : lab ∈ (caIdxs X y degrees).map (fun i => y.getD i default) := hmem
  refine mem_of_mem_map_getD ?_ hmem2
  intro i hi
  have hir := List.mem_range.mp (List.mem_filter.mp hi).1
  omega

theorem ica_labels_sub (X : List α) (y : List β) (degrees : List ℚ)
    (hXy : X.length ≤ y.length) :
    ∀ lab ∈ (interclass_average_filter X y degrees).2, lab ∈ y := by
  intro lab hmem
  have hmem2 : lab ∈ (icaIdxs X y degrees).map (fun i => y.getD i default) := hmem
  refine mem_of_mem_map_getD ?_ hmem2
  intro i hi
  have hir := List.mem_range.mp (List.mem_filter.mp hi).1
  omega

theorem zero_labels_sub (X : List α) (y : List β) (degrees : List ℚ)
    (hdy : degrees.length ≤ y.length) :
    ∀ lab ∈ (zero_degree_filter X y degrees).2, lab ∈ y := by
  intro lab hmem
  have hmem2 : lab ∈ (zIdxs degrees).map (fun i => y.getD i default) := hmem
  refine mem_of_mem_map_getD ?_ hmem2
  intro i hi
  have hir := List.mem_range.mp (List.mem_filter.mp hi).1
  omega

theorem filter_by_degree_labels_sub (X : List α) (y : List β) (degrees : List ℚ)
    (f : String) (Xs : List α) (ys : List β)
    (hXy : X.length ≤ y.length) (hdy : degrees.length ≤ y.length)
    (hok : filter_by_degree X y degrees f = .ok (Xs, ys)) :
    ∀ lab ∈ ys, lab ∈ y := by
  unfold filter_by_degree at hok
  split at hok
  · have h := Except.ok.inj hok
    have hys : ys = (class_average_filter X y degrees).2 := (congrArg Prod.snd h).symm
    rw [hys]
    exact ca_labels_sub X y degrees hXy
  · split at hok
    · have h := Except.ok.inj hok
      have hys : ys = (interclass_average_filter X y degrees).2 := (congrArg Prod.snd h).symm
      rw [hys]
      exact ica_labels_sub X y degrees hXy
    · split at hok
      · have h := Except.ok.inj hok
        have hys : ys = (zero_degree_filter X y degrees).2 := (congrArg Prod.snd h).symm
        rw [hys]
        exact zero_labels_sub X y degrees hdy
      · exact absurd hok (by simp)

theorem filter_by_degree_class_average (X : List α) (y : List β) (degrees : List ℚ) :
    filter_by_degree X y degrees "class-average" = .ok (class_average_filter X y degrees) := by
  unfold filter_by_degree
  rw [if_pos rfl]

end OrchestratorLemmas

section OrchestratorTheorems

variable {α β : Type} [Inhabited α] [Inhabited β] [DecidableEq β]

theorem support_vectors_body_labels_sub (bg : List α → List (List Bool))
    (X : List α) (y : List β) (fm c : String) (hy : y.length = X.length)
    (Xs : List α) (ys : List β)
    (hok : (support_vectors_body bg X y fm c).1 = .ok (Xs, ys)) :
    ∀ lab ∈ ys, lab ∈ y := by
  have hXi := extract_len_Xy X (bg X) y
  have hdi := extract_len_d X (bg X) y
  have hsub1 := extract_labels_sub X (bg X) y hy
  unfold support_vectors_body at hok
  split at hok
  · -- two-pass
    rw [filter_by_degree_class_average] at hok
    have hok2 : Except.ok
        ((get_interclass_vertices
            (class_average_filter (get_interclass_vertices X (bg X) y).1
              (get_interclass_vertices X (bg X) y).2.1
              (get_interclass_vertices X (bg X) y).2.2).1
            (bg (class_average_filter (get_interclass_vertices X (bg X) y).1
              (get_interclass_vertices X (bg X) y).2.1
              (get_interclass_vertices X (bg X) y).2.2).1)
            (class_average_filter (get_interclass_vertices X (bg X) y).1
              (get_interclass_vertices X (bg X) y).2.1
              (get_interclass_vertices X (bg X) y).2.2).2).1,
          (get_interclass_vertices
            (class_average_filter (get_interclass_vertices X (bg X) y).1
              (get_interclass_vertices X (bg X) y).2.1
              (get_interclass_vertices X (bg X) y).2.2).1
            (bg (class_average_filter (get_interclass_vertices X (bg X) y).1
              (get_interclass_vertices X (bg X) y).2.1
              (get_interclass_vertices X (bg X) y).2.2).1)
            (class_average_filter (get_interclass_vertices X (bg X) y).1
              (get_interclass_vertices X (bg X) y).2.1
              (get_interclass_vertices X (bg X) y).2.2).2).2.1) =
        Except.ok (Xs, ys) := hok
    have h := Except.ok.inj hok2
    injection h with hA hB
    rw [← hB]
    intro lab hlab
    have hstep1 := extract_labels_sub
      (class_average_filter (get_interclass_vertices X (bg X) y).1
        (get_interclass_vertices X (bg X) y).2.1
        (get_interclass_vertices X (bg X) y).2.2).1
      (bg (class_average_filter (get_interclass_vertices X (bg X) y).1
        (get_interclass_vertices X (bg X) y).2.1
        (get_interclass_vertices X (bg X) y).2.2).1)
      (class_average_filter (get_interclass_vertices X (bg X) y).1
        (get_interclass_vertices X (bg X) y).2.1
        (get_interclass_vertices X (bg X) y).2.2).2
      (ca_len_Xy _ _ _).symm lab hlab
    have hstep2 := ca_labels_sub (get_interclass_vertices X (bg X) y).1
      (get_interclass_vertices X (bg X) y).2.1
      (get_interclass_vertices X (bg X) y).2.2 (le_of_eq hXi) lab hstep1
    exact hsub1 lab hstep2
  · split at hok
    · -- one-pass
      split at hok
      · -- unknown criterion: error
        exact absurd hok (by simp)
      · -- valid criterion
        cases hfd : filter_by_degree (get_interclass_vertices X (bg X) y).1
            (get_interclass_vertices X (bg X) y).2.1
            (get_interclass_vertices X (bg X) y).2.2 c with
        | error e =>
          rw [hfd] at hok
          exact absurd hok (by simp)
        | ok support =>
          rw [hfd] at hok
          have hok2 : Except.ok support = Except.ok (Xs, ys) := hok
          have h := Except.ok.inj hok2
          rw [h] at hfd
          intro lab hlab
          have hstep1 := filter_by_degree_labels_sub (get_interclass_vertices X (bg X) y).1
            (get_interclass_vertices X (bg X) y).2.1
            (get_interclass_vertices X (bg X) y).2.2 c Xs ys
            (le_of_eq hXi) (le_of_eq hdi) hfd lab hlab
          exact hsub1 lab hstep1
    · -- unknown filter method: error
      exact absurd hok (by simp)

theorem support_vectors_pre_labels_sub (g r u : List α → List (List Bool))
    (X : List α) (y : List β) (gm fm c : String) (hy : y.length = X.length)
    (Xs : List α) (ys : List β)
    (hok : (support_vectors_pre g r u X y gm fm c).1 = .ok (Xs, ys)) :
    ∀ lab ∈ ys, lab ∈ y := by
  unfold support_vectors_pre at hok
  cases hlk : graphLookup g r u gm with
  | none =>
    rw [hlk] at hok
    exact absurd hok (by simp)
  | some bg =>
    rw [hlk] at hok
    exact support_vectors_body_labels_sub bg X y fm c hy Xs ys hok

end OrchestratorTheorems

section MainTheorems

variable {α β : Type} [Inhabited α] [Inhabited β] [DecidableEq β]

/-- C1: whenever `support_vectors` returns successfully, the set of distinct
labels of the result equals the set of distinct labels of the input (the
check `len(np.unique(y)) == len(np.unique(ysupport))` together with the fact
that every output label comes from `y` forces set equality); and whenever
the would-be result of the pipeline body omits some input label, the final
coverage check replaces it with the coverage `ValueError`. -/
theorem support_vectors_coverage (g r u : List α → List (List Bool))
    (X : List α) (y : List β) (gm fm c : String) (hy : y.length = X.length) :
    (∀ Xs ys, (support_vectors g r u X y gm fm c).1 = .ok (Xs, ys) →
      ∀ lab, lab ∈ ys ↔ lab ∈ y) ∧
    (∀ Xs ys, (support_vectors_pre g r u X y gm fm c).1 = .ok (Xs, ys) →
      (∃ lab, lab ∈ y ∧ lab ∉ ys) →
      (support_vectors g r u X y gm fm c).1 =
        .error (.valueError
          "The support vectors do not cover all classes in the original data.")) := by
  constructor
  · intro Xs ys hok lab
    unfold support_vectors at hok
    rcases hpre : support_vectors_pre g r u X y gm fm c with ⟨res, tr⟩
    rw [hpre] at hok
    cases res with
    | error e => exact absurd hok (by simp)
    | ok s =>
      have hok2 : coverageCheck y s.1 s.2 = Except.ok (Xs, ys) := hok
      unfold coverageCheck at hok2
      by_cases hcond : y.dedup.length ≠ s.2.dedup.length
      · rw [if_pos hcond] at hok2
        exact absurd hok2 (by simp)
      · rw [if_neg hcond] at hok2
        push_neg at hcond
        have h := Except.ok.inj hok2
        injection h with hA hB
        rw [← hB]
        have hsubset : ∀ l ∈ s.2, l ∈ y :=
          support_vectors_pre_labels_sub g r u X y gm fm c hy s.1 s.2 (by rw [hpre])
        have hfin : s.2.toFinset = y.toFinset := by
          apply Finset.eq_of_subset_of_card_le
          · intro a ha
            exact List.mem_toFinset.mpr (hsubset a (List.mem_toFinset.mp ha))
          · rw [List.card_toFinset, List.card_toFinset, hcond]
        rw [← List.mem_toFinset, hfin, List.mem_toFinset]
  · intro Xs ys hok hmiss
    rcases hpre : support_vectors_pre g r u X y gm fm c with ⟨res, tr⟩
    rw [hpre] at hok
    have hres : res = .ok (Xs, ys) := hok
    subst hres
    have hsubset : ∀ l ∈ ys, l ∈ y :=
      support_vectors_pre_labels_sub g r u X y gm fm c hy Xs ys (by rw [hpre])
    obtain ⟨lab, hlab, hnot⟩ := hmiss
    have hss : ys.toFinset ⊂ y.toFinset := by
      constructor
      · intro a ha
        exact List.mem_toFinset.mpr (hsubset a (List.mem_toFinset.mp ha))
      · intro hsup
        exact hnot (List.mem_toFinset.mp (hsup (List.mem_toFinset.mpr hlab)))
    have hcard : ys.toFinset.card < y.toFinset.card := Finset.card_lt_card hss
    rw [List.card_toFinset, List.card_toFinset] at hcard
    have hcond : y.dedup.length ≠ ys.dedup.length := by omega
    unfold support_vectors
    rw [hpre]
    show coverageCheck y Xs ys = _
    unfold coverageCheck
    rw [if_pos hcond]

/-- C7 (amended): on a recognized graph method and a filter-method string
that is neither `"two-pass"` nor `"one-pass"`, `support_vectors` raises the
`ValueError` naming the offending string — but only after one graph
construction and one interclass-vertex extraction have been performed. -/
theorem unknown_filter_method_error (g r u : List α → List (List Bool))
    (X : List α) (y : List β) (gm fm c : String) (bg : List α → List (List Bool))
    (hlk : graphLookup g r u gm = some bg)
    (h2 : fm ≠ "two-pass") (h1 : fm ≠ "one-pass") :
    support_vectors g r u X y gm fm c =
      (.error (.valueError ("Unknown filter method: " ++ fm)),
       [Step.buildGraph, Step.extract]) := by
  have hpre : support_vectors_pre g r u X y gm fm c =
      (.error (.valueError ("Unknown filter method: " ++ fm)),
       [Step.buildGraph, Step.extract]) := by
    unfold support_vectors_pre
    rw [hlk]
    show support_vectors_body bg X y fm c = _
    unfold support_vectors_body
    rw [if_neg h2, if_neg h1]
  unfold support_vectors
  rw [hpre]

/-- C10: on the `"two-pass"` branch the `one_step_filter_criterion` argument
is never consulted — for any two criterion strings the results (and traces)
of `support_vectors` are identical. -/
theorem two_pass_ignores_criterion (g r u : List α → List (List Bool))
    (X : List α) (y : List β) (gm c1 c2 : String) :
    support_vectors g r u X y gm "two-pass" c1 =
      support_vectors g r u X y gm "two-pass" c2 := by
  have hb : ∀ bg : List α → List (List Bool),
      support_vectors_body bg X y "two-pass" c1 =
        support_vectors_body bg X y "two-pass" c2 := by
    intro bg
    unfold support_vectors_body
    rw [if_pos rfl, if_pos rfl]
  have hp : support_vectors_pre g r u X y gm "two-pass" c1 =
      support_vectors_pre g r u X y gm "two-pass" c2 := by
    unfold support_vectors_pre
    cases graphLookup g r u gm with
    | none => rfl
    | some bg => exact hb bg
  unfold support_vectors
  rw [hp]

end MainTheorems

/-- A concrete proximity-graph builder for witnesses: all distinct pairs
adjacent (complete graph, no self-loops). -/
def allPairsGraph {γ : Type} (pts : List γ) : List (List Bool) :=
  (List.range pts.length).map (fun i => (List.range pts.length).map (fun j => decide (i ≠ j)))

/-- A concrete proximity-graph builder for witnesses: the all-false adjacency
matrix (every vertex isolated). -/
def noEdgesGraph {γ : Type} (pts : List γ) : List (List Bool) :=
  pts.map (fun _ => List.replicate pts.length false)

/-- C1 witness: with every vertex isolated, the two-pass pipeline's would-be
result has no labels at all, so on input labels `[5]` the run ends in the
coverage `ValueError` (the spec's isolated-single-member scenario). -/
theorem support_vectors_coverage_witness :
    (support_vectors noEdgesGraph noEdgesGraph noEdgesGraph
        [(0 : Int)] [(5 : Int)] "gabriel" "two-pass" "x").1 =
      .error (.valueError
        "The support vectors do not cover all classes in the original data.") :=
  (support_vectors_coverage noEdgesGraph noEdgesGraph noEdgesGraph
      [(0 : Int)] [(5 : Int)] "gabriel" "two-pass" "x" rfl).2
    [] [] (by rfl) ⟨5, by decide, by decide⟩

/-- C7 (counterexample): on the unknown filter method `"three-pass"` the
pipeline does raise the `ValueError` naming the string, but one graph
construction and one interclass-vertex extraction have already been
performed — contradicting the claim that no such work happens. -/
theorem three_pass_work_performed :
    (support_vectors allPairsGraph allPairsGraph allPairsGraph
        [(0 : Int), 1] [(0 : Int), 1] "gabriel" "three-pass" "zero").1 =
      .error (.valueError "Unknown filter method: three-pass") ∧
    Step.buildGraph ∈ (support_vectors allPairsGraph allPairsGraph allPairsGraph
        [(0 : Int), 1] [(0 : Int), 1] "gabriel" "three-pass" "zero").2 ∧
    Step.extract ∈ (support_vectors allPairsGraph allPairsGraph allPairsGraph
        [(0 : Int), 1] [(0 : Int), 1] "gabriel" "three-pass" "zero").2 := by
  have h : support_vectors allPairsGraph allPairsGraph allPairsGraph
      [(0 : Int), 1] [(0 : Int), 1] "gabriel" "three-pass" "zero" =
      (.error (.valueError "Unknown filter method: three-pass"),
       [Step.buildGraph, Step.extract]) := by rfl
  rw [h]
  refine ⟨rfl, ?_, ?_⟩
  · decide
  · decide

/-- C7 witness: the amended statement at the concrete `"three-pass"` run. -/
theorem unknown_filter_method_error_witness :
    support_vectors allPairsGraph allPairsGraph allPairsGraph
        [(7 : Int)] [(2 : Int)] "gabriel" "three-pass" "zero" =
      (.error (.valueError "Unknown filter method: three-pass"),
       [Step.buildGraph, Step.extract]) :=
  unknown_filter_method_error allPairsGraph allPairsGraph allPairsGraph
    [(7 : Int)] [(2 : Int)] "gabriel" "three-pass" "zero" allPairsGraph
    rfl (by decide) (by decide)
